import Mathlib

/-!
Verification of `src/propositions/operators.py`: five converters that rewrite
propositional formulas into restricted operator bases.

The `Formula` data type, its classification predicates and the truth-value
evaluator live in external modules (`propositions/syntax.py`,
`propositions/semantics.py`) that are not part of the sources; they are
modelled from the spec's data-model and glossary sections.  The five
converter functions are translated directly from `operators.py`.  Each
converter is `Formula → Option Formula`: the `none` branch models the
trailing `assert` of the Python code failing (reachable only on trees that
violate the well-formedness invariant enforced by the `Formula` constructor).
-/

/-- Modelled from the spec: an immutable formula tree with a root label and,
depending on the label's arity, zero, one, or two children (`first`,
`second`).  `atom` is a zero-child node (variable or constant root), `unary`
a one-child node, `binary` a two-child node, mirroring the three arities of
the Python `Formula` constructor. -/
inductive Formula where
  | atom (root : String)
  | unary (root : String) (first : Formula)
  | binary (root : String) (first second : Formula)
deriving DecidableEq

/-- Modelled from the spec: classification predicate for variable root labels
(external grammar component): a variable name starts with a lowercase letter
in `p`..`z`, optionally followed by digits. -/
def is_variable (s : String) : Bool :=
  match s.data with
  | [] => false
  | c :: rest => ('p' ≤ c && c ≤ 'z') && rest.all Char.isDigit

/-- Modelled from the spec: the two constant root labels `T` and `F`. -/
def is_constant (s : String) : Bool :=
  s == "T" || s == "F"

/-- Modelled from the spec: the single unary operator label `~` (negation). -/
def is_unary (s : String) : Bool :=
  s == "~"

/-- Modelled from the spec: the seven binary operator labels
`&`, `|`, `->`, `+` (xor), `<->` (iff), `-&` (nand), `-|` (nor). -/
def is_binary (s : String) : Bool :=
  s == "&" || s == "|" || s == "->" || s == "+" || s == "<->" || s == "-&" || s == "-|"

/-- Modelled from the spec: the construction-time invariant of the `Formula`
type — a zero-child node carries a variable or constant label, a one-child
node a unary operator, a two-child node a binary operator. -/
def wf : Formula → Bool
  | .atom r => is_variable r || is_constant r
  | .unary r a => is_unary r && wf a
  | .binary r a b => is_binary r && wf a && wf b

/-- Modelled from the spec: the variable set of a formula, here as the
left-to-right list of variable occurrences (the Python `variables()` returns
a set with unspecified iteration order; only emptiness and membership matter
for the claims, and `next(iter(s), default)` is modelled as the head of this
list with the same default). -/
def variablesList : Formula → List String
  | .atom r => if is_variable r then [r] else []
  | .unary _ a => variablesList a
  | .binary _ a b => variablesList a ++ variablesList b

/-- Models `next(iter(formula.variables()), 'p')` from `operators.py`. -/
def firstVarDefault (f : Formula) : String :=
  (variablesList f).head?.getD "p"

/-- Modelled from the spec: the truth-value evaluator (external semantics
component).  Constants evaluate to their truth value, a variable to its value
in the model, `~` to negation, and each binary label to the corresponding
boolean connective. -/
def evaluate : Formula → (String → Bool) → Bool
  | .atom r, m => if r = "T" then true else if r = "F" then false else m r
  | .unary _ a, m => !(evaluate a m)
  | .binary r a b, m =>
      if r = "&" then evaluate a m && evaluate b m
      else if r = "|" then evaluate a m || evaluate b m
      else if r = "->" then !(evaluate a m) || evaluate b m
      else if r = "+" then xor (evaluate a m) (evaluate b m)
      else if r = "<->" then evaluate a m == evaluate b m
      else if r = "-&" then !(evaluate a m && evaluate b m)
      else !(evaluate a m || evaluate b m)

/-- `to_not_and_or` from `operators.py`: convert to the `{~, &, |}` basis.
The Python line `v = next(iter(formula.variables()), 'p')` is computed before
the constant test and only read in the constant branch; it appears here in
the `atom` arm, the only arm where the constant branch can trigger.  The
final `none` models the trailing `assert formula.root == '-|'` failing. -/
def to_not_and_or : Formula → Option Formula
  | .atom root =>
      if is_variable root then some (.atom root)
      else
        let v := firstVarDefault (.atom root)
        if is_constant root then
          if root = "T" then some (.binary "|" (.atom v) (.unary "~" (.atom v)))
          else some (.binary "&" (.atom v) (.unary "~" (.atom v)))
        else none
  | .unary root first =>
      if is_unary root then (to_not_and_or first).map (fun a => .unary "~" a)
      else none
  | .binary root first second =>
      match to_not_and_or first, to_not_and_or second with
      | some a, some b =>
          if root = "&" then some (.binary "&" a b)
          else if root = "|" then some (.binary "|" a b)
          else if root = "->" then some (.binary "|" (.unary "~" a) b)
          else if root = "+" then
            some (.binary "|" (.binary "&" a (.unary "~" b))
                              (.binary "&" (.unary "~" a) b))
          else if root = "<->" then
            some (.binary "|" (.binary "&" a b)
                              (.binary "&" (.unary "~" a) (.unary "~" b)))
          else if root = "-&" then some (.unary "~" (.binary "&" a b))
          else if root = "-|" then some (.unary "~" (.binary "|" a b))
          else none
      | _, _ => none

/-- `to_not_and` from `operators.py`: convert to the `{~, &}` basis. -/
def to_not_and : Formula → Option Formula
  | .atom root =>
      if is_variable root then some (.atom root)
      else
        let v := firstVarDefault (.atom root)
        if is_constant root then
          if root = "T" then
            some (.unary "~" (.binary "&" (.atom v) (.unary "~" (.atom v))))
          else some (.binary "&" (.atom v) (.unary "~" (.atom v)))
        else none
  | .unary root first =>
      if is_unary root then (to_not_and first).map (fun a => .unary "~" a)
      else none
  | .binary root first second =>
      match to_not_and first, to_not_and second with
      | some a, some b =>
          if root = "&" then some (.binary "&" a b)
          else if root = "|" then
            some (.unary "~" (.binary "&" (.unary "~" a) (.unary "~" b)))
          else if root = "->" then
            some (.unary "~" (.binary "&" a (.unary "~" b)))
          else if root = "+" then
            some (.binary "&"
              (.unary "~" (.binary "&" (.unary "~" a) (.unary "~" b)))
              (.unary "~" (.binary "&" a b)))
          else if root = "<->" then
            some (.unary "~" (.binary "&"
              (.unary "~" (.binary "&" a b))
              (.unary "~" (.binary "&" (.unary "~" a) (.unary "~" b)))))
          else if root = "-&" then some (.unary "~" (.binary "&" a b))
          else if root = "-|" then
            some (.binary "&" (.unary "~" a) (.unary "~" b))
          else none
      | _, _ => none

/-- The local `nand` helper of `to_nand` in `operators.py`. -/
def nand (a b : Formula) : Formula :=
  .binary "-&" a b

/-- `to_nand` from `operators.py`: convert to the `{-&}` basis.  The Python
code computes `v`, `t = nand(v, nand(v, v))` and `f = nand(t, t)` before the
constant test; they are only read in the constant branch, which can trigger
only in the `atom` arm. -/
def to_nand : Formula → Option Formula
  | .atom root =>
      if is_variable root then some (.atom root)
      else
        let v := firstVarDefault (.atom root)
        let t := nand (.atom v) (nand (.atom v) (.atom v))
        let f := nand t t
        if is_constant root then
          if root = "T" then some t else some f
        else none
  | .unary root first =>
      if is_unary root then (to_nand first).map (fun x => nand x x)
      else none
  | .binary root first second =>
      match to_nand first, to_nand second with
      | some a, some b =>
          if root = "-&" then some (nand a b)
          else if root = "&" then some (nand (nand a b) (nand a b))
          else if root = "|" then some (nand (nand a a) (nand b b))
          else if root = "->" then some (nand a (nand b b))
          else if root = "-|" then
            some (nand (nand (nand a a) (nand b b)) (nand (nand a a) (nand b b)))
          else if root = "+" then
            let a_or_b := nand (nand a a) (nand b b)
            let a_and_b := nand (nand a b) (nand a b)
            let not_a_and_b := nand a_and_b a_and_b
            let x := nand a_or_b not_a_and_b
            some (nand x x)
          else if root = "<->" then
            let a_or_b := nand (nand a a) (nand b b)
            let a_and_b := nand (nand a b) (nand a b)
            let not_a_and_b := nand a_and_b a_and_b
            some (nand a_or_b not_a_and_b)
          else none
      | _, _ => none

namespace ImpliesNot

/-- The local `make_or` helper of `to_implies_not` in `operators.py`. -/
def make_or (a b : Formula) : Formula :=
  .binary "->" (.unary "~" a) b

/-- The local `make_and` helper of `to_implies_not` in `operators.py`. -/
def make_and (a b : Formula) : Formula :=
  .unary "~" (.binary "->" a (.unary "~" b))

end ImpliesNot

/-- `to_implies_not` from `operators.py`: convert to the `{->, ~}` basis. -/
def to_implies_not : Formula → Option Formula
  | .atom root =>
      if is_variable root then some (.atom root)
      else
        let v := firstVarDefault (.atom root)
        let t : Formula := .binary "->" (.atom v) (.atom v)
        if is_constant root then
          if root = "T" then some t else some (.unary "~" t)
        else none
  | .unary root first =>
      if is_unary root then (to_implies_not first).map (fun a => .unary "~" a)
      else none
  | .binary root first second =>
      match to_implies_not first, to_implies_not second with
      | some a, some b =>
          if root = "->" then some (.binary "->" a b)
          else if root = "|" then some (ImpliesNot.make_or a b)
          else if root = "&" then some (ImpliesNot.make_and a b)
          else if root = "-&" then some (.unary "~" (ImpliesNot.make_and a b))
          else if root = "-|" then some (.unary "~" (ImpliesNot.make_or a b))
          else if root = "<->" then
            some (ImpliesNot.make_and (.binary "->" a b) (.binary "->" b a))
          else if root = "+" then
            some (ImpliesNot.make_and (ImpliesNot.make_or a b)
                                      (.unary "~" (ImpliesNot.make_and a b)))
          else none
      | _, _ => none

namespace ImpliesFalse

/-- The local `make_not` helper of `to_implies_false` in `operators.py`. -/
def make_not (a : Formula) : Formula :=
  .binary "->" a (.atom "F")

/-- The local `make_or` helper of `to_implies_false` in `operators.py`. -/
def make_or (a b : Formula) : Formula :=
  .binary "->" (make_not a) b

/-- The local `make_and` helper of `to_implies_false` in `operators.py`. -/
def make_and (a b : Formula) : Formula :=
  make_not (.binary "->" a (make_not b))

end ImpliesFalse

/-- `to_implies_false` from `operators.py`: convert to the `{->, F}` basis. -/
def to_implies_false : Formula → Option Formula
  | .atom root =>
      if is_variable root then some (.atom root)
      else
        let t : Formula := .binary "->" (.atom "F") (.atom "F")
        if is_constant root then
          if root = "T" then some t else some (.atom "F")
        else none
  | .unary root first =>
      if is_unary root then (to_implies_false first).map (fun a => ImpliesFalse.make_not a)
      else none
  | .binary root first second =>
      match to_implies_false first, to_implies_false second with
      | some a, some b =>
          if root = "->" then some (.binary "->" a b)
          else if root = "|" then some (ImpliesFalse.make_or a b)
          else if root = "&" then some (ImpliesFalse.make_and a b)
          else if root = "-&" then some (ImpliesFalse.make_not (ImpliesFalse.make_and a b))
          else if root = "-|" then some (ImpliesFalse.make_not (ImpliesFalse.make_or a b))
          else if root = "<->" then
            some (ImpliesFalse.make_and (.binary "->" a b) (.binary "->" b a))
          else if root = "+" then
            some (ImpliesFalse.make_and (ImpliesFalse.make_or a b)
                                        (ImpliesFalse.make_not (ImpliesFalse.make_and a b)))
          else none
      | _, _ => none

/-- Output grammar of `to_not_and_or`: only variables, `~`, `&`, `|`
(in particular no constants). -/
def onlyNotAndOr : Formula → Bool
  | .atom r => is_variable r
  | .unary r a => r == "~" && onlyNotAndOr a
  | .binary r a b => (r == "&" || r == "|") && onlyNotAndOr a && onlyNotAndOr b

/-- Output grammar of `to_not_and`: only variables, `~`, `&`. -/
def onlyNotAnd : Formula → Bool
  | .atom r => is_variable r
  | .unary r a => r == "~" && onlyNotAnd a
  | .binary r a b => r == "&" && onlyNotAnd a && onlyNotAnd b

/-- Output grammar of `to_nand`: only variables and `-&`. -/
def onlyNand : Formula → Bool
  | .atom r => is_variable r
  | .unary _ _ => false
  | .binary r a b => r == "-&" && onlyNand a && onlyNand b

/-- Output grammar of `to_implies_not`: only variables, `->`, `~`. -/
def onlyImpliesNot : Formula → Bool
  | .atom r => is_variable r
  | .unary r a => r == "~" && onlyImpliesNot a
  | .binary r a b => r == "->" && onlyImpliesNot a && onlyImpliesNot b

/-- Output grammar of `to_implies_false`: only variables, the constant `F`,
and `->`. -/
def onlyImpliesFalse : Formula → Bool
  | .atom r => is_variable r || r == "F"
  | .unary _ _ => false
  | .binary r a b => r == "->" && onlyImpliesFalse a && onlyImpliesFalse b

example : to_not_and_or (.binary "->" (.atom "p") (.atom "q"))
    = some (.binary "|" (.unary "~" (.atom "p")) (.atom "q")) := by decide

example : to_nand (.unary "~" (.atom "p"))
    = some (.binary "-&" (.atom "p") (.atom "p")) := by decide

example : to_implies_false (.atom "T")
    = some (.binary "->" (.atom "F") (.atom "F")) := by decide

example : to_not_and_or (.binary "&" (.atom "q") (.atom "T"))
    = some (.binary "&" (.atom "q")
        (.binary "|" (.atom "p") (.unary "~" (.atom "p")))) := by decide

lemma is_constant_cases {r : String} (h : is_constant r = true) : r = "T" ∨ r = "F" := by
  simpa [is_constant] using h

lemma is_unary_eq {r : String} (h : is_unary r = true) : r = "~" := by
  simpa [is_unary] using h

lemma is_binary_cases {r : String} (h : is_binary r = true) :
    r = "&" ∨ r = "|" ∨ r = "->" ∨ r = "+" ∨ r = "<->" ∨ r = "-&" ∨ r = "-|" := by
  simpa [is_binary, or_assoc] using h

/-- Combined specification of `to_not_and_or` on well-formed input: it
succeeds, its output stays in the `{~, &, |}` grammar, and the output is
truth-functionally equivalent to the input. -/
theorem to_not_and_or_spec (f : Formula) (h : wf f = true) :
    ∃ r, to_not_and_or f = some r ∧ onlyNotAndOr r = true ∧
      ∀ m, evaluate r m = evaluate f m := by
  induction f with
  | atom root =>
      simp only [wf, Bool.or_eq_true] at h
      rcases h with hv | hc
      · exact ⟨.atom root, by simp [to_not_and_or, hv], by simp [onlyNotAndOr, hv],
          fun m => rfl⟩
      · rcases is_constant_cases hc with rfl | rfl
        · refine ⟨.binary "|" (.atom "p") (.unary "~" (.atom "p")),
            by decide, by decide, fun m => ?_⟩
          cases hm : m "p" <;> simp [evaluate, hm]
        · refine ⟨.binary "&" (.atom "p") (.unary "~" (.atom "p")),
            by decide, by decide, fun m => ?_⟩
          cases hm : m "p" <;> simp [evaluate, hm]
  | unary root a ih =>
      simp only [wf, Bool.and_eq_true] at h
      obtain ⟨hr, ha⟩ := h
      obtain ⟨x, hx, hox, hex⟩ := ih ha
      refine ⟨.unary "~" x, ?_, ?_, fun m => ?_⟩
      · simp [to_not_and_or, hr, hx]
      · simp [onlyNotAndOr, hox]
      · simp [evaluate, hex m]
  | binary root a b iha ihb =>
      simp only [wf, Bool.and_eq_true] at h
      obtain ⟨⟨hr, ha⟩, hb⟩ := h
      obtain ⟨x, hx, hox, hex⟩ := iha ha
      obtain ⟨y, hy, hoy, hey⟩ := ihb hb
      rcases is_binary_cases hr with rfl | rfl | rfl | rfl | rfl | rfl | rfl
      · exact ⟨.binary "&" x y, by simp [to_not_and_or, hx, hy],
          by simp [onlyNotAndOr, hox, hoy],
          fun m => by cases hA : evaluate a m <;> cases hB : evaluate b m <;>
            simp [evaluate, hex, hey, hA, hB]⟩
      · exact ⟨.binary "|" x y, by simp [to_not_and_or, hx, hy],
          by simp [onlyNotAndOr, hox, hoy],
          fun m => by cases hA : evaluate a m <;> cases hB : evaluate b m <;>
            simp [evaluate, hex, hey, hA, hB]⟩
      · exact ⟨.binary "|" (.unary "~" x) y, by simp [to_not_and_or, hx, hy],
          by simp [onlyNotAndOr, hox, hoy],
          fun m => by cases hA : evaluate a m <;> cases hB : evaluate b m <;>
            simp [evaluate, hex, hey, hA, hB]⟩
      · exact ⟨.binary "|" (.binary "&" x (.unary "~" y)) (.binary "&" (.unary "~" x) y),
          by simp [to_not_and_or, hx, hy],
          by simp [onlyNotAndOr, hox, hoy],
          fun m => by cases hA : evaluate a m <;> cases hB : evaluate b m <;>
            simp [evaluate, hex, hey, hA, hB]⟩
      · exact ⟨.binary "|" (.binary "&" x y) (.binary "&" (.unary "~" x) (.unary "~" y)),
          by simp [to_not_and_or, hx, hy],
          by simp [onlyNotAndOr, hox, hoy],
          fun m => by cases hA : evaluate a m <;> cases hB : evaluate b m <;>
            simp [evaluate, hex, hey, hA, hB]⟩
      · exact ⟨.unary "~" (.binary "&" x y), by simp [to_not_and_or, hx, hy],
          by simp [onlyNotAndOr, hox, hoy],
          fun m => by cases hA : evaluate a m <;> cases hB : evaluate b m <;>
            simp [evaluate, hex, hey, hA, hB]⟩
      · exact ⟨.unary "~" (.binary "|" x y), by simp [to_not_and_or, hx, hy],
          by simp [onlyNotAndOr, hox, hoy],
          fun m => by cases hA : evaluate a m <;> cases hB : evaluate b m <;>
            simp [evaluate, hex, hey, hA, hB]⟩

/-- Combined specification of `to_not_and` on well-formed input: it succeeds,
its output stays in the `{~, &}` grammar, and the output is truth-functionally
equivalent to the input. -/
theorem to_not_and_spec (f : Formula) (h : wf f = true) :
    ∃ r, to_not_and f = some r ∧ onlyNotAnd r = true ∧
      ∀ m, evaluate r m = evaluate f m := by
  induction f with
  | atom root =>
      simp only [wf, Bool.or_eq_true] at h
      rcases h with hv | hc
      · exact ⟨.atom root, by simp [to_not_and, hv], by simp [onlyNotAnd, hv],
          fun m => rfl⟩
      · rcases is_constant_cases hc with rfl | rfl
        · refine ⟨.unary "~" (.binary "&" (.atom "p") (.unary "~" (.atom "p"))),
            by decide, by decide, fun m => ?_⟩
          cases hm : m "p" <;> simp [evaluate, hm]
        · refine ⟨.binary "&" (.atom "p") (.unary "~" (.atom "p")),
            by decide, by decide, fun m => ?_⟩
          cases hm : m "p" <;> simp [evaluate, hm]
  | unary root a ih =>
      simp only [wf, Bool.and_eq_true] at h
      obtain ⟨hr, ha⟩ := h
      obtain ⟨x, hx, hox, hex⟩ := ih ha
      refine ⟨.unary "~" x, ?_, ?_, fun m => ?_⟩
      · simp [to_not_and, hr, hx]
      · simp [onlyNotAnd, hox]
      · simp [evaluate, hex m]
  | binary root a b iha ihb =>
      simp only [wf, Bool.and_eq_true] at h
      obtain ⟨⟨hr, ha⟩, hb⟩ := h
      obtain ⟨x, hx, hox, hex⟩ := iha ha
      obtain ⟨y, hy, hoy, hey⟩ := ihb hb
      rcases is_binary_cases hr with rfl | rfl | rfl | rfl | rfl | rfl | rfl
      · exact ⟨.binary "&" x y, by simp [to_not_and, hx, hy],
          by simp [onlyNotAnd, hox, hoy],
          fun m => by cases hA : evaluate a m <;> cases hB : evaluate b m <;>
            simp [evaluate, hex, hey, hA, hB]⟩
      · exact ⟨.unary "~" (.binary "&" (.unary "~" x) (.unary "~" y)),
          by simp [to_not_and, hx, hy],
          by simp [onlyNotAnd, hox, hoy],
          fun m => by cases hA : evaluate a m <;> cases hB : evaluate b m <;>
            simp [evaluate, hex, hey, hA, hB]⟩
      · exact ⟨.unary "~" (.binary "&" x (.unary "~" y)),
          by simp [to_not_and, hx, hy],
          by simp [onlyNotAnd, hox, hoy],
          fun m => by cases hA : evaluate a m <;> cases hB : evaluate b m <;>
            simp [evaluate, hex, hey, hA, hB]⟩
      · exact ⟨.binary "&"
            (.unary "~" (.binary "&" (.unary "~" x) (.unary "~" y)))
            (.unary "~" (.binary "&" x y)),
          by simp [to_not_and, hx, hy],
          by simp [onlyNotAnd, hox, hoy],
          fun m => by cases hA : evaluate a m <;> cases hB : evaluate b m <;>
            simp [evaluate, hex, hey, hA, hB]⟩
      · exact ⟨.unary "~" (.binary "&"
            (.unary "~" (.binary "&" x y))
            (.unary "~" (.binary "&" (.unary "~" x) (.unary "~" y)))),
          by simp [to_not_and, hx, hy],
          by simp [onlyNotAnd, hox, hoy],
          fun m => by cases hA : evaluate a m <;> cases hB : evaluate b m <;>
            simp [evaluate, hex, hey, hA, hB]⟩
      · exact ⟨.unary "~" (.binary "&" x y), by simp [to_not_and, hx, hy],
          by simp [onlyNotAnd, hox, hoy],
          fun m => by cases hA : evaluate a m <;> cases hB : evaluate b m <;>
            simp [evaluate, hex, hey, hA, hB]⟩
      · exact ⟨.binary "&" (.unary "~" x) (.unary "~" y),
          by simp [to_not_and, hx, hy],
          by simp [onlyNotAnd, hox, hoy],
          fun m => by cases hA : evaluate a m <;> cases hB : evaluate b m <;>
            simp [evaluate, hex, hey, hA, hB]⟩

/-- Combined specification of `to_nand` on well-formed input: it succeeds,
its output stays in the `{-&}` grammar, and the output is truth-functionally
equivalent to the input. -/
theorem to_nand_spec (f : Formula) (h : wf f = true) :
    ∃ r, to_nand f = some r ∧ onlyNand r = true ∧
      ∀ m, evaluate r m = evaluate f m := by
  induction f with
  | atom root =>
      simp only [wf, Bool.or_eq_true] at h
      rcases h with hv | hc
      · exact ⟨.atom root, by simp [to_nand, hv], by simp [onlyNand, hv],
          fun m => rfl⟩
      · rcases is_constant_cases hc with rfl | rfl
        · refine ⟨nand (.atom "p") (nand (.atom "p") (.atom "p")),
            by decide, by decide, fun m => ?_⟩
          cases hm : m "p" <;> simp [evaluate, nand, hm]
        · refine ⟨nand (nand (.atom "p") (nand (.atom "p") (.atom "p")))
              (nand (.atom "p") (nand (.atom "p") (.atom "p"))),
            by decide, by decide, fun m => ?_⟩
          cases hm : m "p" <;> simp [evaluate, nand, hm]
  | unary root a ih =>
      simp only [wf, Bool.and_eq_true] at h
      obtain ⟨hr, ha⟩ := h
      obtain ⟨x, hx, hox, hex⟩ := ih ha
      refine ⟨nand x x, ?_, ?_, fun m => ?_⟩
      · simp [to_nand, hr, hx]
      · simp [onlyNand, nand, hox]
      · simp [evaluate, nand, hex m]
  | binary root a b iha ihb =>
      simp only [wf, Bool.and_eq_true] at h
      obtain ⟨⟨hr, ha⟩, hb⟩ := h
      obtain ⟨x, hx, hox, hex⟩ := iha ha
      obtain ⟨y, hy, hoy, hey⟩ := ihb hb
      rcases is_binary_cases hr with rfl | rfl | rfl | rfl | rfl | rfl | rfl
      · exact ⟨nand (nand x y) (nand x y), by simp [to_nand, hx, hy],
          by simp [onlyNand, nand, hox, hoy],
          fun m => by cases hA : evaluate a m <;> cases hB : evaluate b m <;>
            simp [evaluate, nand, hex, hey, hA, hB]⟩
      · exact ⟨nand (nand x x) (nand y y), by simp [to_nand, hx, hy],
          by simp [onlyNand, nand, hox, hoy],
          fun m => by cases hA : evaluate a m <;> cases hB : evaluate b m <;>
            simp [evaluate, nand, hex, hey, hA, hB]⟩
      · exact ⟨nand x (nand y y), by simp [to_nand, hx, hy],
          by simp [onlyNand, nand, hox, hoy],
          fun m => by cases hA : evaluate a m <;> cases hB : evaluate b m <;>
            simp [evaluate, nand, hex, hey, hA, hB]⟩
      · exact ⟨nand
            (nand (nand (nand x x) (nand y y))
                  (nand (nand (nand x y) (nand x y)) (nand (nand x y) (nand x y))))
            (nand (nand (nand x x) (nand y y))
                  (nand (nand (nand x y) (nand x y)) (nand (nand x y) (nand x y)))),
          by simp [to_nand, hx, hy],
          by simp [onlyNand, nand, hox, hoy],
          fun m => by cases hA : evaluate a m <;> cases hB : evaluate b m <;>
            simp [evaluate, nand, hex, hey, hA, hB]⟩
      · exact ⟨nand (nand (nand x x) (nand y y))
                  (nand (nand (nand x y) (nand x y)) (nand (nand x y) (nand x y))),
          by simp [to_nand, hx, hy],
          by simp [onlyNand, nand, hox, hoy],
          fun m => by cases hA : evaluate a m <;> cases hB : evaluate b m <;>
            simp [evaluate, nand, hex, hey, hA, hB]⟩
      · exact ⟨nand x y, by simp [to_nand, hx, hy],
          by simp [onlyNand, nand, hox, hoy],
          fun m => by cases hA : evaluate a m <;> cases hB : evaluate b m <;>
            simp [evaluate, nand, hex, hey, hA, hB]⟩
      · exact ⟨nand (nand (nand x x) (nand y y)) (nand (nand x x) (nand y y)),
          by simp [to_nand, hx, hy],
          by simp [onlyNand, nand, hox, hoy],
          fun m => by cases hA : evaluate a m <;> cases hB : evaluate b m <;>
            simp [evaluate, nand, hex, hey, hA, hB]⟩

/-- Combined specification of `to_implies_not` on well-formed input: it
succeeds, its output stays in the `{->, ~}` grammar, and the output is
truth-functionally equivalent to the input. -/
theorem to_implies_not_spec (f : Formula) (h : wf f = true) :
    ∃ r, to_implies_not f = some r ∧ onlyImpliesNot r = true ∧
      ∀ m, evaluate r m = evaluate f m := by
  induction f with
  | atom root =>
      simp only [wf, Bool.or_eq_true] at h
      rcases h with hv | hc
      · exact ⟨.atom root, by simp [to_implies_not, hv], by simp [onlyImpliesNot, hv],
          fun m => rfl⟩
      · rcases is_constant_cases hc with rfl | rfl
        · refine ⟨.binary "->" (.atom "p") (.atom "p"),
            by decide, by decide, fun m => ?_⟩
          cases hm : m "p" <;> simp [evaluate, hm]
        · refine ⟨.unary "~" (.binary "->" (.atom "p") (.atom "p")),
            by decide, by decide, fun m => ?_⟩
          cases hm : m "p" <;> simp [evaluate, hm]
  | unary root a ih =>
      simp only [wf, Bool.and_eq_true] at h
      obtain ⟨hr, ha⟩ := h
      obtain ⟨x, hx, hox, hex⟩ := ih ha
      refine ⟨.unary "~" x, ?_, ?_, fun m => ?_⟩
      · simp [to_implies_not, hr, hx]
      · simp [onlyImpliesNot, hox]
      · simp [evaluate, hex m]
  | binary root a b iha ihb =>
      simp only [wf, Bool.and_eq_true] at h
      obtain ⟨⟨hr, ha⟩, hb⟩ := h
      obtain ⟨x, hx, hox, hex⟩ := iha ha
      obtain ⟨y, hy, hoy, hey⟩ := ihb hb
      rcases is_binary_cases hr with rfl | rfl | rfl | rfl | rfl | rfl | rfl
      · exact ⟨ImpliesNot.make_and x y, by simp [to_implies_not, hx, hy],
          by simp [onlyImpliesNot, ImpliesNot.make_and, hox, hoy],
          fun m => by cases hA : evaluate a m <;> cases hB : evaluate b m <;>
            simp [evaluate, ImpliesNot.make_and, hex, hey, hA, hB]⟩
      · exact ⟨ImpliesNot.make_or x y, by simp [to_implies_not, hx, hy],
          by simp [onlyImpliesNot, ImpliesNot.make_or, hox, hoy],
          fun m => by cases hA : evaluate a m <;> cases hB : evaluate b m <;>
            simp [evaluate, ImpliesNot.make_or, hex, hey, hA, hB]⟩
      · exact ⟨.binary "->" x y, by simp [to_implies_not, hx, hy],
          by simp [onlyImpliesNot, hox, hoy],
          fun m => by cases hA : evaluate a m <;> cases hB : evaluate b m <;>
            simp [evaluate, hex, hey, hA, hB]⟩
      · exact ⟨ImpliesNot.make_and (ImpliesNot.make_or x y)
            (.unary "~" (ImpliesNot.make_and x y)),
          by simp [to_implies_not, hx, hy],
          by simp [onlyImpliesNot, ImpliesNot.make_and, ImpliesNot.make_or, hox, hoy],
          fun m => by cases hA : evaluate a m <;> cases hB : evaluate b m <;>
            simp [evaluate, ImpliesNot.make_and, ImpliesNot.make_or, hex, hey, hA, hB]⟩
      · exact ⟨ImpliesNot.make_and (.binary "->" x y) (.binary "->" y x),
          by simp [to_implies_not, hx, hy],
          by simp [onlyImpliesNot, ImpliesNot.make_and, hox, hoy],
          fun m => by cases hA : evaluate a m <;> cases hB : evaluate b m <;>
            simp [evaluate, ImpliesNot.make_and, hex, hey, hA, hB]⟩
      · exact ⟨.unary "~" (ImpliesNot.make_and x y), by simp [to_implies_not, hx, hy],
          by simp [onlyImpliesNot, ImpliesNot.make_and, hox, hoy],
          fun m => by cases hA : evaluate a m <;> cases hB : evaluate b m <;>
            simp [evaluate, ImpliesNot.make_and, hex, hey, hA, hB]⟩
      · exact ⟨.unary "~" (ImpliesNot.make_or x y), by simp [to_implies_not, hx, hy],
          by simp [onlyImpliesNot, ImpliesNot.make_or, hox, hoy],
          fun m => by cases hA : evaluate a m <;> cases hB : evaluate b m <;>
            simp [evaluate, ImpliesNot.make_or, hex, hey, hA, hB]⟩

/-- Combined specification of `to_implies_false` on well-formed input: it
succeeds, its output stays in the `{->, F}` grammar, and the output is
truth-functionally equivalent to the input. -/
theorem to_implies_false_spec (f : Formula) (h : wf f = true) :
    ∃ r, to_implies_false f = some r ∧ onlyImpliesFalse r = true ∧
      ∀ m, evaluate r m = evaluate f m := by
  induction f with
  | atom root =>
      simp only [wf, Bool.or_eq_true] at h
      rcases h with hv | hc
      · exact ⟨.atom root, by simp [to_implies_false, hv],
          by simp [onlyImpliesFalse, hv], fun m => rfl⟩
      · rcases is_constant_cases hc with rfl | rfl
        · exact ⟨.binary "->" (.atom "F") (.atom "F"),
            by decide, by decide, fun m => by simp [evaluate]⟩
        · exact ⟨.atom "F", by decide, by decide, fun m => rfl⟩
  | unary root a ih =>
      simp only [wf, Bool.and_eq_true] at h
      obtain ⟨hr, ha⟩ := h
      obtain ⟨x, hx, hox, hex⟩ := ih ha
      refine ⟨ImpliesFalse.make_not x, ?_, ?_, fun m => ?_⟩
      · simp [to_implies_false, hr, hx]
      · simp [onlyImpliesFalse, ImpliesFalse.make_not, hox]
      · simp [evaluate, ImpliesFalse.make_not, hex m]
  | binary root a b iha ihb =>
      simp only [wf, Bool.and_eq_true] at h
      obtain ⟨⟨hr, ha⟩, hb⟩ := h
      obtain ⟨x, hx, hox, hex⟩ := iha ha
      obtain ⟨y, hy, hoy, hey⟩ := ihb hb
      rcases is_binary_cases hr with rfl | rfl | rfl | rfl | rfl | rfl | rfl
      · exact ⟨ImpliesFalse.make_and x y, by simp [to_implies_false, hx, hy],
          by simp [onlyImpliesFalse, ImpliesFalse.make_and, ImpliesFalse.make_not,
            hox, hoy],
          fun m => by cases hA : evaluate a m <;> cases hB : evaluate b m <;>
            simp [evaluate, ImpliesFalse.make_and, ImpliesFalse.make_not,
              hex, hey, hA, hB]⟩
      · exact ⟨ImpliesFalse.make_or x y, by simp [to_implies_false, hx, hy],
          by simp [onlyImpliesFalse, ImpliesFalse.make_or, ImpliesFalse.make_not,
            hox, hoy],
          fun m => by cases hA : evaluate a m <;> cases hB : evaluate b m <;>
            simp [evaluate, ImpliesFalse.make_or, ImpliesFalse.make_not,
              hex, hey, hA, hB]⟩
      · exact ⟨.binary "->" x y, by simp [to_implies_false, hx, hy],
          by simp [onlyImpliesFalse, hox, hoy],
          fun m => by cases hA : evaluate a m <;> cases hB : evaluate b m <;>
            simp [evaluate, hex, hey, hA, hB]⟩
      · exact ⟨ImpliesFalse.make_and (ImpliesFalse.make_or x y)
            (ImpliesFalse.make_not (ImpliesFalse.make_and x y)),
          by simp [to_implies_false, hx, hy],
          by simp [onlyImpliesFalse, ImpliesFalse.make_and, ImpliesFalse.make_or,
            ImpliesFalse.make_not, hox, hoy],
          fun m => by cases hA : evaluate a m <;> cases hB : evaluate b m <;>
            simp [evaluate, ImpliesFalse.make_and, ImpliesFalse.make_or,
              ImpliesFalse.make_not, hex, hey, hA, hB]⟩
      · exact ⟨ImpliesFalse.make_and (.binary "->" x y) (.binary "->" y x),
          by simp [to_implies_false, hx, hy],
          by simp [onlyImpliesFalse, ImpliesFalse.make_and, ImpliesFalse.make_not,
            hox, hoy],
          fun m => by cases hA : evaluate a m <;> cases hB : evaluate b m <;>
            simp [evaluate, ImpliesFalse.make_and, ImpliesFalse.make_not,
              hex, hey, hA, hB]⟩
      · exact ⟨ImpliesFalse.make_not (ImpliesFalse.make_and x y),
          by simp [to_implies_false, hx, hy],
          by simp [onlyImpliesFalse, ImpliesFalse.make_and, ImpliesFalse.make_not,
            hox, hoy],
          fun m => by cases hA : evaluate a m <;> cases hB : evaluate b m <;>
            simp [evaluate, ImpliesFalse.make_and, ImpliesFalse.make_not,
              hex, hey, hA, hB]⟩
      · exact ⟨ImpliesFalse.make_not (ImpliesFalse.make_or x y),
          by simp [to_implies_false, hx, hy],
          by simp [onlyImpliesFalse, ImpliesFalse.make_or, ImpliesFalse.make_not,
            hox, hoy],
          fun m => by cases hA : evaluate a m <;> cases hB : evaluate b m <;>
            simp [evaluate, ImpliesFalse.make_or, ImpliesFalse.make_not,
              hex, hey, hA, hB]⟩

lemma onlyNotAndOr_wf (f : Formula) (h : onlyNotAndOr f = true) : wf f = true := by
  induction f with
  | atom r =>
      simp only [onlyNotAndOr] at h
      simp [wf, h]
  | unary r a ih =>
      simp only [onlyNotAndOr, Bool.and_eq_true, beq_iff_eq] at h
      obtain ⟨rfl, ha⟩ := h
      simp [wf, is_unary, ih ha]
  | binary r a b iha ihb =>
      simp only [onlyNotAndOr, Bool.and_eq_true, Bool.or_eq_true, beq_iff_eq] at h
      obtain ⟨⟨hr, ha⟩, hb⟩ := h
      rcases hr with rfl | rfl <;> simp [wf, is_binary, iha ha, ihb hb]

lemma onlyNotAnd_wf (f : Formula) (h : onlyNotAnd f = true) : wf f = true := by
  induction f with
  | atom r =>
      simp only [onlyNotAnd] at h
      simp [wf, h]
  | unary r a ih =>
      simp only [onlyNotAnd, Bool.and_eq_true, beq_iff_eq] at h
      obtain ⟨rfl, ha⟩ := h
      simp [wf, is_unary, ih ha]
  | binary r a b iha ihb =>
      simp only [onlyNotAnd, Bool.and_eq_true, beq_iff_eq] at h
      obtain ⟨⟨rfl, ha⟩, hb⟩ := h
      simp [wf, is_binary, iha ha, ihb hb]

lemma onlyNand_wf (f : Formula) (h : onlyNand f = true) : wf f = true := by
  induction f with
  | atom r =>
      simp only [onlyNand] at h
      simp [wf, h]
  | unary r a ih => simp [onlyNand] at h
  | binary r a b iha ihb =>
      simp only [onlyNand, Bool.and_eq_true, beq_iff_eq] at h
      obtain ⟨⟨rfl, ha⟩, hb⟩ := h
      simp [wf, is_binary, iha ha, ihb hb]

lemma onlyImpliesNot_wf (f : Formula) (h : onlyImpliesNot f = true) : wf f = true := by
  induction f with
  | atom r =>
      simp only [onlyImpliesNot] at h
      simp [wf, h]
  | unary r a ih =>
      simp only [onlyImpliesNot, Bool.and_eq_true, beq_iff_eq] at h
      obtain ⟨rfl, ha⟩ := h
      simp [wf, is_unary, ih ha]
  | binary r a b iha ihb =>
      simp only [onlyImpliesNot, Bool.and_eq_true, beq_iff_eq] at h
      obtain ⟨⟨rfl, ha⟩, hb⟩ := h
      simp [wf, is_binary, iha ha, ihb hb]

lemma onlyImpliesFalse_wf (f : Formula) (h : onlyImpliesFalse f = true) : wf f = true := by
  induction f with
  | atom r =>
      simp only [onlyImpliesFalse, Bool.or_eq_true, beq_iff_eq] at h
      rcases h with hv | rfl
      · simp [wf, hv]
      · simp [wf, is_constant]
  | unary r a ih => simp [onlyImpliesFalse] at h
  | binary r a b iha ihb =>
      simp only [onlyImpliesFalse, Bool.and_eq_true, beq_iff_eq] at h
      obtain ⟨⟨rfl, ha⟩, hb⟩ := h
      simp [wf, is_binary, iha ha, ihb hb]

lemma to_not_and_or_id (f : Formula) (h : onlyNotAndOr f = true) :
    to_not_and_or f = some f := by
  induction f with
  | atom r =>
      simp only [onlyNotAndOr] at h
      simp [to_not_and_or, h]
  | unary r a ih =>
      simp only [onlyNotAndOr, Bool.and_eq_true, beq_iff_eq] at h
      obtain ⟨rfl, ha⟩ := h
      simp [to_not_and_or, is_unary, ih ha]
  | binary r a b iha ihb =>
      simp only [onlyNotAndOr, Bool.and_eq_true, Bool.or_eq_true, beq_iff_eq] at h
      obtain ⟨⟨hr, ha⟩, hb⟩ := h
      rcases hr with rfl | rfl <;> simp [to_not_and_or, iha ha, ihb hb]

lemma to_not_and_id (f : Formula) (h : onlyNotAnd f = true) :
    to_not_and f = some f := by
  induction f with
  | atom r =>
      simp only [onlyNotAnd] at h
      simp [to_not_and, h]
  | unary r a ih =>
      simp only [onlyNotAnd, Bool.and_eq_true, beq_iff_eq] at h
      obtain ⟨rfl, ha⟩ := h
      simp [to_not_and, is_unary, ih ha]
  | binary r a b iha ihb =>
      simp only [onlyNotAnd, Bool.and_eq_true, beq_iff_eq] at h
      obtain ⟨⟨rfl, ha⟩, hb⟩ := h
      simp [to_not_and, iha ha, ihb hb]

lemma to_nand_id (f : Formula) (h : onlyNand f = true) :
    to_nand f = some f := by
  induction f with
  | atom r =>
      simp only [onlyNand] at h
      simp [to_nand, h]
  | unary r a ih => simp [onlyNand] at h
  | binary r a b iha ihb =>
      simp only [onlyNand, Bool.and_eq_true, beq_iff_eq] at h
      obtain ⟨⟨rfl, ha⟩, hb⟩ := h
      simp [to_nand, nand, iha ha, ihb hb]

lemma to_implies_not_id (f : Formula) (h : onlyImpliesNot f = true) :
    to_implies_not f = some f := by
  induction f with
  | atom r =>
      simp only [onlyImpliesNot] at h
      simp [to_implies_not, h]
  | unary r a ih =>
      simp only [onlyImpliesNot, Bool.and_eq_true, beq_iff_eq] at h
      obtain ⟨rfl, ha⟩ := h
      simp [to_implies_not, is_unary, ih ha]
  | binary r a b iha ihb =>
      simp only [onlyImpliesNot, Bool.and_eq_true, beq_iff_eq] at h
      obtain ⟨⟨rfl, ha⟩, hb⟩ := h
      simp [to_implies_not, iha ha, ihb hb]

lemma to_implies_false_id (f : Formula) (h : onlyImpliesFalse f = true) :
    to_implies_false f = some f := by
  induction f with
  | atom r =>
      simp only [onlyImpliesFalse, Bool.or_eq_true, beq_iff_eq] at h
      rcases h with hv | rfl
      · simp [to_implies_false, hv]
      · decide
  | unary r a ih => simp [onlyImpliesFalse] at h
  | binary r a b iha ihb =>
      simp only [onlyImpliesFalse, Bool.and_eq_true, beq_iff_eq] at h
      obtain ⟨⟨rfl, ha⟩, hb⟩ := h
      simp [to_implies_false, iha ha, ihb hb]

/-- C1: for each of the five converters and every well-formed formula `f`,
the returned formula evaluates to the same truth value as `f` under every
assignment.  Assignments are total functions over all variable names, so any
variable appearing only in the output is covered by an arbitrary value. -/
theorem claim_C1_semantic_equivalence (f : Formula) (h : wf f = true)
    (m : String → Bool) :
    (to_not_and_or f).map (fun r => evaluate r m) = some (evaluate f m) ∧
    (to_not_and f).map (fun r => evaluate r m) = some (evaluate f m) ∧
    (to_nand f).map (fun r => evaluate r m) = some (evaluate f m) ∧
    (to_implies_not f).map (fun r => evaluate r m) = some (evaluate f m) ∧
    (to_implies_false f).map (fun r => evaluate r m) = some (evaluate f m) := by
  obtain ⟨r1, e1, -, v1⟩ := to_not_and_or_spec f h
  obtain ⟨r2, e2, -, v2⟩ := to_not_and_spec f h
  obtain ⟨r3, e3, -, v3⟩ := to_nand_spec f h
  obtain ⟨r4, e4, -, v4⟩ := to_implies_not_spec f h
  obtain ⟨r5, e5, -, v5⟩ := to_implies_false_spec f h
  exact ⟨by simp [e1, v1], by simp [e2, v2], by simp [e3, v3],
    by simp [e4, v4], by simp [e5, v5]⟩

theorem claim_C1_witness :
    (to_not_and_or (.binary "->" (.atom "p") (.atom "q"))).map
        (fun r => evaluate r (fun _ => true))
      = some (evaluate (.binary "->" (.atom "p") (.atom "q")) (fun _ => true)) ∧
    (to_not_and (.binary "->" (.atom "p") (.atom "q"))).map
        (fun r => evaluate r (fun _ => true))
      = some (evaluate (.binary "->" (.atom "p") (.atom "q")) (fun _ => true)) ∧
    (to_nand (.binary "->" (.atom "p") (.atom "q"))).map
        (fun r => evaluate r (fun _ => true))
      = some (evaluate (.binary "->" (.atom "p") (.atom "q")) (fun _ => true)) ∧
    (to_implies_not (.binary "->" (.atom "p") (.atom "q"))).map
        (fun r => evaluate r (fun _ => true))
      = some (evaluate (.binary "->" (.atom "p") (.atom "q")) (fun _ => true)) ∧
    (to_implies_false (.binary "->" (.atom "p") (.atom "q"))).map
        (fun r => evaluate r (fun _ => true))
      = some (evaluate (.binary "->" (.atom "p") (.atom "q")) (fun _ => true)) :=
  claim_C1_semantic_equivalence (.binary "->" (.atom "p") (.atom "q"))
    (by decide) (fun _ => true)

/-- C2: for each converter and every well-formed formula, every operator and
constant of the output lies in the target basis: `{~, &, |}` for
`to_not_and_or`, `{~, &}` for `to_not_and`, `{-&}` for `to_nand`,
`{->, ~}` for `to_implies_not`, and `{->, F}` for `to_implies_false`.  The
first four grammars admit only variable atoms, so no constant `T` or `F`
appears in those outputs. -/
theorem claim_C2_basis_containment (f : Formula) (h : wf f = true) :
    (to_not_and_or f).map onlyNotAndOr = some true ∧
    (to_not_and f).map onlyNotAnd = some true ∧
    (to_nand f).map onlyNand = some true ∧
    (to_implies_not f).map onlyImpliesNot = some true ∧
    (to_implies_false f).map onlyImpliesFalse = some true := by
  obtain ⟨r1, e1, o1, -⟩ := to_not_and_or_spec f h
  obtain ⟨r2, e2, o2, -⟩ := to_not_and_spec f h
  obtain ⟨r3, e3, o3, -⟩ := to_nand_spec f h
  obtain ⟨r4, e4, o4, -⟩ := to_implies_not_spec f h
  obtain ⟨r5, e5, o5, -⟩ := to_implies_false_spec f h
  exact ⟨by simp [e1, o1], by simp [e2, o2], by simp [e3, o3],
    by simp [e4, o4], by simp [e5, o5]⟩

theorem claim_C2_witness :
    (to_not_and_or (.binary "+" (.atom "p") (.atom "T"))).map onlyNotAndOr
      = some true ∧
    (to_not_and (.binary "+" (.atom "p") (.atom "T"))).map onlyNotAnd
      = some true ∧
    (to_nand (.binary "+" (.atom "p") (.atom "T"))).map onlyNand
      = some true ∧
    (to_implies_not (.binary "+" (.atom "p") (.atom "T"))).map onlyImpliesNot
      = some true ∧
    (to_implies_false (.binary "+" (.atom "p") (.atom "T"))).map onlyImpliesFalse
      = some true :=
  claim_C2_basis_containment (.binary "+" (.atom "p") (.atom "T")) (by decide)

/-- C3: each of the five converters terminates and returns a value on every
well-formed input, including bare variables and bare constants.  In this
embedding every converter is defined by strict structural recursion on the
formula tree (each recursive call is on `first` or `second`), so Lean's
termination checker certifies termination; this theorem states that a value
is in fact returned on every well-formed input. -/
theorem claim_C3_totality (f : Formula) (h : wf f = true) :
    (to_not_and_or f).isSome = true ∧
    (to_not_and f).isSome = true ∧
    (to_nand f).isSome = true ∧
    (to_implies_not f).isSome = true ∧
    (to_implies_false f).isSome = true := by
  obtain ⟨r1, e1, -, -⟩ := to_not_and_or_spec f h
  obtain ⟨r2, e2, -, -⟩ := to_not_and_spec f h
  obtain ⟨r3, e3, -, -⟩ := to_nand_spec f h
  obtain ⟨r4, e4, -, -⟩ := to_implies_not_spec f h
  obtain ⟨r5, e5, -, -⟩ := to_implies_false_spec f h
  simp [e1, e2, e3, e4, e5]

theorem claim_C3_witness :
    (to_not_and_or (.atom "T")).isSome = true ∧
    (to_not_and (.atom "T")).isSome = true ∧
    (to_nand (.atom "T")).isSome = true ∧
    (to_implies_not (.atom "T")).isSome = true ∧
    (to_implies_false (.atom "T")).isSome = true :=
  claim_C3_totality (.atom "T") (by decide)

/-- C7: no converter can fail on a well-formed input.  In this embedding the
`none` result models exactly the failure paths of the Python code — the
trailing `assert` of each converter and the (constructor-unrepresentable)
unrecognized-root cases — so the statement says the assertion-failure branch
is unreachable whenever `wf` holds. -/
theorem claim_C7_no_failure (f : Formula) (h : wf f = true) :
    to_not_and_or f ≠ none ∧
    to_not_and f ≠ none ∧
    to_nand f ≠ none ∧
    to_implies_not f ≠ none ∧
    to_implies_false f ≠ none := by
  obtain ⟨r1, e1, -, -⟩ := to_not_and_or_spec f h
  obtain ⟨r2, e2, -, -⟩ := to_not_and_spec f h
  obtain ⟨r3, e3, -, -⟩ := to_nand_spec f h
  obtain ⟨r4, e4, -, -⟩ := to_implies_not_spec f h
  obtain ⟨r5, e5, -, -⟩ := to_implies_false_spec f h
  simp [e1, e2, e3, e4, e5]

theorem claim_C7_witness :
    to_not_and_or (.binary "-|" (.atom "p") (.atom "q")) ≠ none ∧
    to_not_and (.binary "-|" (.atom "p") (.atom "q")) ≠ none ∧
    to_nand (.binary "-|" (.atom "p") (.atom "q")) ≠ none ∧
    to_implies_not (.binary "-|" (.atom "p") (.atom "q")) ≠ none ∧
    to_implies_false (.binary "-|" (.atom "p") (.atom "q")) ≠ none :=
  claim_C7_no_failure (.binary "-|" (.atom "p") (.atom "q")) (by decide)

/-- C9: each converter is semantically idempotent — converting its own output
again yields a formula with the same truth value as that output under every
assignment. -/
theorem claim_C9_semantic_idempotence (f : Formula) (h : wf f = true)
    (m : String → Bool) :
    ((to_not_and_or f).bind to_not_and_or).map (fun r => evaluate r m)
      = (to_not_and_or f).map (fun r => evaluate r m) ∧
    ((to_not_and f).bind to_not_and).map (fun r => evaluate r m)
      = (to_not_and f).map (fun r => evaluate r m) ∧
    ((to_nand f).bind to_nand).map (fun r => evaluate r m)
      = (to_nand f).map (fun r => evaluate r m) ∧
    ((to_implies_not f).bind to_implies_not).map (fun r => evaluate r m)
      = (to_implies_not f).map (fun r => evaluate r m) ∧
    ((to_implies_false f).bind to_implies_false).map (fun r => evaluate r m)
      = (to_implies_false f).map (fun r => evaluate r m) := by
  obtain ⟨r1, e1, o1, -⟩ := to_not_and_or_spec f h
  obtain ⟨s1, e1s, -, v1⟩ := to_not_and_or_spec r1 (onlyNotAndOr_wf r1 o1)
  obtain ⟨r2, e2, o2, -⟩ := to_not_and_spec f h
  obtain ⟨s2, e2s, -, v2⟩ := to_not_and_spec r2 (onlyNotAnd_wf r2 o2)
  obtain ⟨r3, e3, o3, -⟩ := to_nand_spec f h
  obtain ⟨s3, e3s, -, v3⟩ := to_nand_spec r3 (onlyNand_wf r3 o3)
  obtain ⟨r4, e4, o4, -⟩ := to_implies_not_spec f h
  obtain ⟨s4, e4s, -, v4⟩ := to_implies_not_spec r4 (onlyImpliesNot_wf r4 o4)
  obtain ⟨r5, e5, o5, -⟩ := to_implies_false_spec f h
  obtain ⟨s5, e5s, -, v5⟩ := to_implies_false_spec r5 (onlyImpliesFalse_wf r5 o5)
  exact ⟨by simp [e1, e1s, v1], by simp [e2, e2s, v2], by simp [e3, e3s, v3],
    by simp [e4, e4s, v4], by simp [e5, e5s, v5]⟩

theorem claim_C9_witness :
    ((to_not_and_or (.atom "F")).bind to_not_and_or).map
        (fun r => evaluate r (fun _ => false))
      = (to_not_and_or (.atom "F")).map (fun r => evaluate r (fun _ => false)) ∧
    ((to_not_and (.atom "F")).bind to_not_and).map
        (fun r => evaluate r (fun _ => false))
      = (to_not_and (.atom "F")).map (fun r => evaluate r (fun _ => false)) ∧
    ((to_nand (.atom "F")).bind to_nand).map
        (fun r => evaluate r (fun _ => false))
      = (to_nand (.atom "F")).map (fun r => evaluate r (fun _ => false)) ∧
    ((to_implies_not (.atom "F")).bind to_implies_not).map
        (fun r => evaluate r (fun _ => false))
      = (to_implies_not (.atom "F")).map (fun r => evaluate r (fun _ => false)) ∧
    ((to_implies_false (.atom "F")).bind to_implies_false).map
        (fun r => evaluate r (fun _ => false))
      = (to_implies_false (.atom "F")).map (fun r => evaluate r (fun _ => false)) :=
  claim_C9_semantic_idempotence (.atom "F") (by decide) (fun _ => false)

/-- C10: each converter is the syntactic identity on formulas already inside
its target grammar — variables and the basis's own operators, plus the
constant `F` for `to_implies_false` only. -/
theorem claim_C10_identity_on_basis (f : Formula) :
    (onlyNotAndOr f = true → to_not_and_or f = some f) ∧
    (onlyNotAnd f = true → to_not_and f = some f) ∧
    (onlyNand f = true → to_nand f = some f) ∧
    (onlyImpliesNot f = true → to_implies_not f = some f) ∧
    (onlyImpliesFalse f = true → to_implies_false f = some f) :=
  ⟨to_not_and_or_id f, to_not_and_id f, to_nand_id f,
    to_implies_not_id f, to_implies_false_id f⟩

theorem claim_C10_witness :
    to_not_and_or (.atom "p") = some (.atom "p") ∧
    to_not_and (.atom "p") = some (.atom "p") ∧
    to_nand (.atom "p") = some (.atom "p") ∧
    to_implies_not (.atom "p") = some (.atom "p") ∧
    to_implies_false (.atom "p") = some (.atom "p") :=
  ⟨(claim_C10_identity_on_basis (.atom "p")).1 (by decide),
    (claim_C10_identity_on_basis (.atom "p")).2.1 (by decide),
    (claim_C10_identity_on_basis (.atom "p")).2.2.1 (by decide),
    (claim_C10_identity_on_basis (.atom "p")).2.2.2.1 (by decide),
    (claim_C10_identity_on_basis (.atom "p")).2.2.2.2 (by decide)⟩

/-- C4 counterexample: on the input `(q & T)`, whose variable set is the
non-empty `{q}`, the constant `T` is encoded with the default variable `p`,
which does not occur in the input — refuting the claim that a variable of the
original formula is used whenever one exists.  (The code computes the
candidate variable from the current subformula, and the constant branch is
only ever reached at a bare constant leaf, whose variable set is empty.) -/
theorem claim_C4_counterexample :
    to_not_and_or (.binary "&" (.atom "q") (.atom "T"))
      = some (.binary "&" (.atom "q")
          (.binary "|" (.atom "p") (.unary "~" (.atom "p")))) ∧
    variablesList (.binary "&" (.atom "q") (.atom "T")) = ["q"] ∧
    ¬ ("p" ∈ variablesList (.binary "&" (.atom "q") (.atom "T"))) := by
  decide

/-- C4 (amended): the tautology/contradiction encoding of a constant always
uses the fixed default name `p`.  The converters compute the candidate
variable from the subformula currently being converted, and the constant case
is reachable only at a bare constant leaf, whose variable set is empty — so
variables elsewhere in the original formula are never consulted.  This
theorem characterizes the encodings at a constant leaf; constants occur only
as leaves, so by the structural recursion this covers every encoding the
converters ever emit. -/
theorem claim_C4_amended (r : String) (h : is_constant r = true) :
    to_not_and_or (.atom r) = some (if r = "T"
        then .binary "|" (.atom "p") (.unary "~" (.atom "p"))
        else .binary "&" (.atom "p") (.unary "~" (.atom "p"))) ∧
    to_not_and (.atom r) = some (if r = "T"
        then .unary "~" (.binary "&" (.atom "p") (.unary "~" (.atom "p")))
        else .binary "&" (.atom "p") (.unary "~" (.atom "p"))) ∧
    to_nand (.atom r) = some (if r = "T"
        then nand (.atom "p") (nand (.atom "p") (.atom "p"))
        else nand (nand (.atom "p") (nand (.atom "p") (.atom "p")))
                  (nand (.atom "p") (nand (.atom "p") (.atom "p")))) ∧
    to_implies_not (.atom r) = some (if r = "T"
        then .binary "->" (.atom "p") (.atom "p")
        else .unary "~" (.binary "->" (.atom "p") (.atom "p"))) := by
  rcases is_constant_cases h with rfl | rfl <;>
    exact ⟨by decide, by decide, by decide, by decide⟩

theorem claim_C4_witness :
    to_not_and_or (.atom "T") = some (if "T" = "T"
        then .binary "|" (.atom "p") (.unary "~" (.atom "p"))
        else .binary "&" (.atom "p") (.unary "~" (.atom "p"))) ∧
    to_not_and (.atom "T") = some (if "T" = "T"
        then .unary "~" (.binary "&" (.atom "p") (.unary "~" (.atom "p")))
        else .binary "&" (.atom "p") (.unary "~" (.atom "p"))) ∧
    to_nand (.atom "T") = some (if "T" = "T"
        then nand (.atom "p") (nand (.atom "p") (.atom "p"))
        else nand (nand (.atom "p") (nand (.atom "p") (.atom "p")))
                  (nand (.atom "p") (nand (.atom "p") (.atom "p")))) ∧
    to_implies_not (.atom "T") = some (if "T" = "T"
        then .binary "->" (.atom "p") (.atom "p")
        else .unary "~" (.binary "->" (.atom "p") (.atom "p"))) :=
  claim_C4_amended "T" (by decide)

/-- C5 counterexample: on `(p & q)` the `{->, F}` converter returns the
single negation `(p -> (q -> F)) -> F` and not the double negation
`((p -> (q -> F)) -> F) -> F` that the claim asserts.  (The double negation
of `a -> not b` would be equivalent to NAND, not AND.) -/
theorem claim_C5_counterexample :
    to_implies_false (.binary "&" (.atom "p") (.atom "q"))
      = some (.binary "->"
          (.binary "->" (.atom "p") (.binary "->" (.atom "q") (.atom "F")))
          (.atom "F")) ∧
    to_implies_false (.binary "&" (.atom "p") (.atom "q"))
      ≠ some (.binary "->"
          (.binary "->"
            (.binary "->" (.atom "p") (.binary "->" (.atom "q") (.atom "F")))
            (.atom "F"))
          (.atom "F")) := by
  decide

/-- C5 (amended): in the `{->, F}` basis, an AND node with converted children
`a` and `b` is rewritten to the single negation `not (a -> not b)` with
negation encoded as `not x = x -> F`, i.e. the returned term is
`(a -> (b -> F)) -> F`. -/
theorem claim_C5_amended (x y a b : Formula)
    (hx : to_implies_false x = some a) (hy : to_implies_false y = some b) :
    to_implies_false (.binary "&" x y)
      = some (.binary "->" (.binary "->" a (.binary "->" b (.atom "F")))
          (.atom "F")) := by
  simp [to_implies_false, hx, hy, ImpliesFalse.make_and, ImpliesFalse.make_not]

theorem claim_C5_witness :
    to_implies_false (.binary "&" (.atom "p") (.atom "q"))
      = some (.binary "->"
          (.binary "->" (.atom "p") (.binary "->" (.atom "q") (.atom "F")))
          (.atom "F")) :=
  claim_C5_amended (.atom "p") (.atom "q") (.atom "p") (.atom "q")
    (by decide) (by decide)

/-- C6 counterexample: on `(p + q)` the NAND converter's output is built from
`not_a_and_b = NAND(ANDab, ANDab)` with `ANDab = NAND(NAND(p,q), NAND(p,q))`,
not from the plain `NAND(p,q)` that the claim uses for `NOT_ANDab`; the two
terms differ syntactically. -/
theorem claim_C6_counterexample :
    to_nand (.binary "+" (.atom "p") (.atom "q"))
      = some (nand
          (nand (nand (nand (.atom "p") (.atom "p")) (nand (.atom "q") (.atom "q")))
            (nand (nand (nand (.atom "p") (.atom "q")) (nand (.atom "p") (.atom "q")))
                  (nand (nand (.atom "p") (.atom "q")) (nand (.atom "p") (.atom "q")))))
          (nand (nand (nand (.atom "p") (.atom "p")) (nand (.atom "q") (.atom "q")))
            (nand (nand (nand (.atom "p") (.atom "q")) (nand (.atom "p") (.atom "q")))
                  (nand (nand (.atom "p") (.atom "q")) (nand (.atom "p") (.atom "q")))))) ∧
    to_nand (.binary "+" (.atom "p") (.atom "q"))
      ≠ some (nand
          (nand (nand (nand (.atom "p") (.atom "p")) (nand (.atom "q") (.atom "q")))
            (nand (.atom "p") (.atom "q")))
          (nand (nand (nand (.atom "p") (.atom "p")) (nand (.atom "q") (.atom "q")))
            (nand (.atom "p") (.atom "q")))) := by
  decide

/-- C6 (amended): in `to_nand`, with converted children `a` and `b`,
`OR = NAND(NAND(a,a), NAND(b,b))`, `ANDab = NAND(NAND(a,b), NAND(a,b))` and
`NOT_ANDab = NAND(ANDab, ANDab)`, a XOR node returns
`NAND(NAND(OR, NOT_ANDab), NAND(OR, NOT_ANDab))` and an IFF node returns the
intermediate `NAND(OR, NOT_ANDab)` — one NAND composition short of the double
negation used for XOR. -/
theorem claim_C6_amended (x y a b : Formula)
    (hx : to_nand x = some a) (hy : to_nand y = some b) :
    to_nand (.binary "+" x y)
      = some (nand
          (nand (nand (nand a a) (nand b b))
            (nand (nand (nand a b) (nand a b)) (nand (nand a b) (nand a b))))
          (nand (nand (nand a a) (nand b b))
            (nand (nand (nand a b) (nand a b)) (nand (nand a b) (nand a b))))) ∧
    to_nand (.binary "<->" x y)
      = some (nand (nand (nand a a) (nand b b))
          (nand (nand (nand a b) (nand a b)) (nand (nand a b) (nand a b)))) ∧
    to_nand (.binary "+" x y)
      = (to_nand (.binary "<->" x y)).map (fun z => nand z z) := by
  refine ⟨?_, ?_, ?_⟩ <;> simp [to_nand, hx, hy, nand]

theorem claim_C6_witness :
    to_nand (.binary "+" (.atom "p") (.atom "q"))
      = some (nand
          (nand (nand (nand (.atom "p") (.atom "p")) (nand (.atom "q") (.atom "q")))
            (nand (nand (nand (.atom "p") (.atom "q")) (nand (.atom "p") (.atom "q")))
                  (nand (nand (.atom "p") (.atom "q")) (nand (.atom "p") (.atom "q")))))
          (nand (nand (nand (.atom "p") (.atom "p")) (nand (.atom "q") (.atom "q")))
            (nand (nand (nand (.atom "p") (.atom "q")) (nand (.atom "p") (.atom "q")))
                  (nand (nand (.atom "p") (.atom "q")) (nand (.atom "p") (.atom "q")))))) ∧
    to_nand (.binary "<->" (.atom "p") (.atom "q"))
      = some (nand (nand (nand (.atom "p") (.atom "p")) (nand (.atom "q") (.atom "q")))
          (nand (nand (nand (.atom "p") (.atom "q")) (nand (.atom "p") (.atom "q")))
                (nand (nand (.atom "p") (.atom "q")) (nand (.atom "p") (.atom "q"))))) ∧
    to_nand (.binary "+" (.atom "p") (.atom "q"))
      = (to_nand (.binary "<->" (.atom "p") (.atom "q"))).map (fun z => nand z z) :=
  claim_C6_amended (.atom "p") (.atom "q") (.atom "p") (.atom "q")
    (by decide) (by decide)

/-- C8: `to_implies_false` maps the bare constant `F` to the bare constant
`F` itself and the bare constant `T` to exactly `F -> F`, a closed formula
with no propositional variables that evaluates to true under every
assignment, in particular the empty one. -/
theorem claim_C8_implies_false_constants :
    to_implies_false (.atom "F") = some (.atom "F") ∧
    to_implies_false (.atom "T") = some (.binary "->" (.atom "F") (.atom "F")) ∧
    variablesList (.binary "->" (.atom "F") (.atom "F")) = [] ∧
    ∀ m : String → Bool, evaluate (.binary "->" (.atom "F") (.atom "F")) m = true := by
  exact ⟨by decide, by decide, by decide, fun m => by simp [evaluate]⟩
